import Mathlib

/-!
Verification development for the clay-strips sculpt brush pipeline
(`source/blender/editors/sculpt_paint/brushes/clay_strips.cc`).

The per-vertex arithmetic is embedded over `ℚ` (exact rationals standing in
for the source's `float` arithmetic).  The brush-local 4x4 matrix is affine
throughout the source, so it is embedded as three basis columns plus a
location.  Float normalization divides by a square root; the embedding
threads an abstract square-root oracle `sqrtA : ℚ → ℚ` through the
definitions, so every theorem below holds for every choice of that oracle.

Helper routines called by `clay_strips.cc` (`fill_factor_from_hide_and_mask`,
`apply_hardness_to_distances`, `filter_plane_trim_limit_factors`,
`clip_and_lock_translations`, ...) are declared in headers outside this
repository excerpt; each such definition carries a doc comment starting
`Modelled from the spec:` and follows the specification's description of the
stage.  Everything in `clay_strips.cc` itself (stage ordering, the plane and
matrix construction, the early return, the per-node dispatch) is translated
directly from that file.
-/

/-- A 3-component vector of rationals, standing in for `float3`. -/
structure V3 where
  x : ℚ
  y : ℚ
  z : ℚ
deriving DecidableEq

def V3.zero : V3 := ⟨0, 0, 0⟩

def V3.add (a b : V3) : V3 := ⟨a.x + b.x, a.y + b.y, a.z + b.z⟩

instance : Add V3 := ⟨V3.add⟩

/-- Scalar multiplication `c * v`. -/
def V3.smul (c : ℚ) (a : V3) : V3 := ⟨c * a.x, c * a.y, c * a.z⟩

/-- Componentwise product, standing in for `float3 * float3`. -/
def V3.mulV (a b : V3) : V3 := ⟨a.x * b.x, a.y * b.y, a.z * b.z⟩

def V3.dot (a b : V3) : ℚ := a.x * b.x + a.y * b.y + a.z * b.z

def V3.cross (a b : V3) : V3 :=
  ⟨a.y * b.z - a.z * b.y, a.z * b.x - a.x * b.z, a.x * b.y - a.y * b.x⟩

def V3.lenSq (a : V3) : ℚ := V3.dot a a

/-- An affine transform: three basis columns plus a translation, standing in
for the `float4x4` of the source (whose last row stays `(0,0,0,1)`). -/
structure A44 where
  xAxis : V3
  yAxis : V3
  zAxis : V3
  loc : V3
deriving DecidableEq

def A44.identity : A44 := ⟨⟨1, 0, 0⟩, ⟨0, 1, 0⟩, ⟨0, 0, 1⟩, V3.zero⟩

/-- `math::transform_point`: apply the linear part columnwise, then translate. -/
def A44.transformPoint (m : A44) (p : V3) : V3 :=
  V3.smul p.x m.xAxis + V3.smul p.y m.yAxis + V3.smul p.z m.zAxis + m.loc

/-- Normalize a vector using the abstract square-root oracle `s`
(stand-in for `v / length(v)`). -/
def V3.normalizeWith (s : ℚ → ℚ) (v : V3) : V3 :=
  V3.smul (1 / s (V3.dot v v)) v

/-- `math::normalize` on a `float4x4`: normalizes the three basis columns,
keeps the translation. -/
def A44.normalizeAxes (s : ℚ → ℚ) (m : A44) : A44 :=
  ⟨V3.normalizeWith s m.xAxis, V3.normalizeWith s m.yAxis,
   V3.normalizeWith s m.zAxis, m.loc⟩

/-- `math::invert` of an affine transform: adjugate-based inverse of the
linear part (rows are cross products of column pairs over the determinant),
translation mapped through the inverse linear part and negated. -/
def A44.invert (m : A44) : A44 :=
  let d := V3.dot m.xAxis (V3.cross m.yAxis m.zAxis)
  let r1 := V3.smul (1 / d) (V3.cross m.yAxis m.zAxis)
  let r2 := V3.smul (1 / d) (V3.cross m.zAxis m.xAxis)
  let r3 := V3.smul (1 / d) (V3.cross m.xAxis m.yAxis)
  { xAxis := ⟨r1.x, r2.x, r3.x⟩
    yAxis := ⟨r1.y, r2.y, r3.y⟩
    zAxis := ⟨r1.z, r2.z, r3.z⟩
    loc := ⟨-(V3.dot r1 m.loc), -(V3.dot r2 m.loc), -(V3.dot r3 m.loc)⟩ }

/-- A plane `n·p + d = 0`, built by `plane_from_point_normal_v3`. -/
structure Plane where
  n : V3
  d : ℚ
deriving DecidableEq

/-- `plane_from_point_normal_v3`: store the normal and `-n·point`. -/
def planeFromPointNormal (point normal : V3) : Plane :=
  ⟨normal, -(V3.dot normal point)⟩

/-- Signed side of a point relative to a plane (`plane_point_side_v3`). -/
def planeSide (pl : Plane) (p : V3) : ℚ := V3.dot pl.n p + pl.d

/-- Falloff curve presets (`eBrushCurvePreset`), custom splines excluded. -/
inductive CurvePreset where
  | smooth
  | sphere
  | root
  | sharp
  | linear
  | constant
deriving DecidableEq

def clamp01 (q : ℚ) : ℚ := max 0 (min 1 q)

/-- Modelled from the spec: `BKE_brush_calc_curve_factors` remaps a distance
through the selected falloff preset into `[0,1]` (the `root` preset is given
a rational stand-in shape; custom splines are out of scope).  Implementation
lives outside this repository excerpt. -/
def BKE_brush_calc_curve_factor (preset : CurvePreset) (d : ℚ) : ℚ :=
  match preset with
  | CurvePreset.smooth => clamp01 ((1 - d) * (1 - d) * (1 + 2 * d))
  | CurvePreset.sphere => clamp01 (1 - d * d)
  | CurvePreset.root => clamp01 (1 - d * d * d)
  | CurvePreset.sharp => clamp01 ((1 - d) * (1 - d))
  | CurvePreset.linear => clamp01 (1 - d)
  | CurvePreset.constant => 1

/-- Modelled from the spec: the curve factor is multiplied into the running
factor (factor pipeline step 7). -/
def BKE_brush_calc_curve_factors (preset : CurvePreset) (d f : ℚ) : ℚ :=
  f * BKE_brush_calc_curve_factor preset d

/-- Modelled from the spec: factor pipeline step 1 — factor 1 for visible
and unmasked vertices, 0 for hidden ones, `1 - mask` in between
(`fill_factor_from_hide_and_mask`, outside this excerpt). -/
def fill_factor_from_hide_and_mask (hidden : Bool) (m : ℚ) : ℚ :=
  if hidden then 0 else 1 - m

/-- Modelled from the spec: factor pipeline step 2 — zero factors for
vertices outside any active region-clip volume; `inRegion` is constantly
true when no clip volume is active (`filter_region_clip_factors`). -/
def filter_region_clip_factors (inRegion : Bool) (f : ℚ) : ℚ :=
  if inRegion then f else 0

/-- Modelled from the spec: factor pipeline step 3 — zero factors where the
vertex normal's dot product with the view normal falls below the culling
threshold (`calc_front_face`). -/
def calc_front_face (viewNormal normal : V3) (f : ℚ) : ℚ :=
  if V3.dot normal viewNormal < 0 then 0 else f

/-- Modelled from the spec: factor pipeline step 4 — the Chebyshev-style
per-axis distance of the vertex in brush-local test-cube space
(`calc_brush_cube_distances`). -/
def calc_brush_cube_distance (mat : A44) (p : V3) : ℚ :=
  let l := A44.transformPoint mat p
  max (max |l.x| |l.y|) |l.z|

/-- Modelled from the spec: factor pipeline step 5 — zero the factor where
the cube distance exceeds the radius (`filter_distances_with_radius`). -/
def filter_distances_with_radius (radius d f : ℚ) : ℚ :=
  if radius < d then 0 else f

/-- Modelled from the spec: factor pipeline step 6 — hardness 0 leaves the
distance unchanged, hardness approaching 1 compresses distances inside the
falloff radius toward 0 (`apply_hardness_to_distances`). -/
def apply_hardness_to_distances (radius hardness d : ℚ) : ℚ :=
  if hardness ≤ 0 then d
  else if d < radius * hardness then 0
  else radius * ((d - radius * hardness) / (radius * (1 - hardness)))

/-- Modelled from the spec: factor pipeline step 8 — multiply in the
externally computed automasking weight (`auto_mask::calc_vert_factors`). -/
def auto_mask_calc_vert_factors (am f : ℚ) : ℚ := f * am

/-- Modelled from the spec: factor pipeline step 9 — multiply in a
procedural texture sample (`calc_brush_texture_factors`). -/
def calc_brush_texture_factors (tex f : ℚ) : ℚ := f * tex

/-- Modelled from the spec: factor pipeline step 10 — multiply by the global
strength scalar (`scale_factors`). -/
def scale_factors (f s : ℚ) : ℚ := f * s

/-- Modelled from the spec: side filter — with `flip` set, only vertices
above the plane participate, so factors of vertices below it are zeroed
(`filter_below_plane_factors`). -/
def filter_below_plane_factors (pl : Plane) (p : V3) (f : ℚ) : ℚ :=
  if planeSide pl p < 0 then 0 else f

/-- Modelled from the spec: side filter — without `flip`, only vertices
below the plane participate, so factors of vertices above it are zeroed
(`filter_above_plane_factors`). -/
def filter_above_plane_factors (pl : Plane) (p : V3) (f : ℚ) : ℚ :=
  if 0 < planeSide pl p then 0 else f

/-- Modelled from the spec: plane projection step 1 — the translation that
moves the vertex onto the reference plane, `-side · n` for a unit plane
normal (`calc_translations_to_plane`). -/
def calc_translations_to_plane (pl : Plane) (p : V3) : V3 :=
  V3.smul (-(planeSide pl p)) pl.n

/-- Modelled from the spec: plane projection step 2 — when a plane-trim
limit is configured, a vertex whose plane translation exceeds the limit has
its factor zeroed (`filter_plane_trim_limit_factors`; the limit is measured
against the squared translation length). -/
def filter_plane_trim_limit_factors (usePlaneTrim : Bool) (planeTrim tLenSq f : ℚ) : ℚ :=
  if usePlaneTrim ∧ planeTrim ^ 2 < tLenSq then 0 else f

/-- Modelled from the spec: plane projection step 3 — translation scaled by
the per-vertex factor (`scale_translations`). -/
def scale_translations (t : V3) (f : ℚ) : V3 := V3.smul f t

/-- Modelled from the spec: one axis of `clip_and_lock_translations` — a
locked axis zeroes the translation component; a mirror-clipped axis clamps
the component so the position cannot cross the boundary at coordinate 0. -/
def clip_axis_component (lock clip : Bool) (p t : ℚ) : ℚ :=
  if lock then 0
  else if clip ∧ ((0 < p ∧ p + t < 0) ∨ (p < 0 ∧ 0 < p + t)) then -p
  else t

/-- Modelled from the spec: `clip_and_lock_translations`, applied to the
three world axes independently. -/
def clip_and_lock_translations (lockX lockY lockZ clipX clipY clipZ : Bool)
    (p t : V3) : V3 :=
  ⟨clip_axis_component lockX clipX p.x t.x,
   clip_axis_component lockY clipY p.y t.y,
   clip_axis_component lockZ clipZ p.z t.z⟩

/-- The three spatial-partition representations (`bke::pbvh::Type`). -/
inductive PBVHType where
  | Mesh
  | Grids
  | BMesh
deriving DecidableEq

/-- Brush settings read by `clay_strips.cc` (immutable per step). -/
structure Brush where
  frontFace : Bool
  curvePreset : CurvePreset
  usePlaneTrim : Bool
  planeTrim : ℚ
  tipScaleX : ℚ
  sculptPlaneArea : Bool
  originalNormal : Bool
  planeOffset : ℚ
  tiltStrength : ℚ

/-- Per-stroke state read by `clay_strips.cc` (`StrokeCache`). -/
structure StrokeCache where
  grabDeltaSymm : V3
  bstrength : ℚ
  radius : ℚ
  viewNormalSymm : V3
  hardness : ℚ
  scale : V3

/-- All read-only inputs of one stroke step: brush and cache settings,
the node layout, the per-vertex attributes and external collaborators
(hide/mask queries, automasking, texture sampling, the externally computed
brush plane and area normal, tilt adjustment, axis lock and mirror clip
flags, and the abstract square root used by float normalization). -/
structure Params where
  brush : Brush
  cache : StrokeCache
  pbvhType : PBVHType
  nodeMask : List ℕ
  nodeVerts : ℕ → List ℕ
  hiddenAttr : ℕ → Bool
  maskAttr : ℕ → ℚ
  inRegion : V3 → Bool
  vertNormal : ℕ → V3
  automask : ℕ → ℚ
  texture : V3 → ℚ
  brushPlaneNormal : V3
  brushPlanePos : V3
  areaNormalOpt : Option V3
  tiltApply : V3 → ℚ → V3
  sqrtA : ℚ → ℚ
  lockX : Bool
  lockY : Bool
  lockZ : Bool
  clipX : Bool
  clipY : Bool
  clipZ : Bool

/-- The mutable representation state: the position buffer and one
bounding-box slot per node. -/
structure State where
  positions : ℕ → V3
  bounds : ℕ → Option (V3 × V3)

/-- Result of one stroke step: the new state plus the list of node indices
for which a job was dispatched. -/
structure StepResult where
  state : State
  dispatched : List ℕ

def vmin (a b : V3) : V3 := ⟨min a.x b.x, min a.y b.y, min a.z b.z⟩

def vmax (a b : V3) : V3 := ⟨max a.x b.x, max a.y b.y, max a.z b.z⟩

/-- One step of the bounding-box fold: extend the running box (or start it)
with one vertex's position. -/
def boundsStep (pos : ℕ → V3) (acc : Option (V3 × V3)) (v : ℕ) : Option (V3 × V3) :=
  match acc with
  | none => some (pos v, pos v)
  | some lohi => some (vmin lohi.1 (pos v), vmax lohi.2 (pos v))

/-- `update_node_bounds_*`: recompute a node's bounding box from its
vertices; an empty node has no box. -/
def boundsOf (pos : ℕ → V3) (l : List ℕ) : Option (V3 × V3) :=
  l.foldl (boundsStep pos) none

/-- The factor pipeline of `calc_faces`, per vertex, in source order:
hide/mask init, region clip, optional front-face cull, cube distance,
radius filter, hardness remap, curve remap, automasking, texture, strength
scaling, then the plane-side filter selected by `flip`. -/
def facesVertexFactor (P : Params) (mat : A44) (pl : Plane)
    (strength : ℚ) (flip : Bool) (p : V3) (v : ℕ) : ℚ :=
  let f0 := fill_factor_from_hide_and_mask (P.hiddenAttr v) (P.maskAttr v)
  let f1 := filter_region_clip_factors (P.inRegion p) f0
  let f2 := if P.brush.frontFace then
      calc_front_face P.cache.viewNormalSymm (P.vertNormal v) f1
    else f1
  let d0 := calc_brush_cube_distance mat p
  let f3 := filter_distances_with_radius 1 d0 f2
  let d1 := apply_hardness_to_distances 1 P.cache.hardness d0
  let f4 := BKE_brush_calc_curve_factors P.brush.curvePreset d1 f3
  let f5 := auto_mask_calc_vert_factors (P.automask v) f4
  let f6 := calc_brush_texture_factors (P.texture p) f5
  let f7 := scale_factors f6 strength
  if flip then filter_below_plane_factors pl p f7
  else filter_above_plane_factors pl p f7

/-- The factor pipeline of `calc_grids`, per vertex.  It matches
`facesVertexFactor` stage for stage except that the source's `calc_grids`
does not call `apply_hardness_to_distances`: the curve is evaluated at the
raw cube distance. -/
def gridsVertexFactor (P : Params) (mat : A44) (pl : Plane)
    (strength : ℚ) (flip : Bool) (p : V3) (v : ℕ) : ℚ :=
  let f0 := fill_factor_from_hide_and_mask (P.hiddenAttr v) (P.maskAttr v)
  let f1 := filter_region_clip_factors (P.inRegion p) f0
  let f2 := if P.brush.frontFace then
      calc_front_face P.cache.viewNormalSymm (P.vertNormal v) f1
    else f1
  let d0 := calc_brush_cube_distance mat p
  let f3 := filter_distances_with_radius 1 d0 f2
  let f4 := BKE_brush_calc_curve_factors P.brush.curvePreset d0 f3
  let f5 := auto_mask_calc_vert_factors (P.automask v) f4
  let f6 := calc_brush_texture_factors (P.texture p) f5
  let f7 := scale_factors f6 strength
  if flip then filter_below_plane_factors pl p f7
  else filter_above_plane_factors pl p f7

/-- The factor pipeline of `calc_bmesh`, per vertex.  Like `calc_grids`,
the source's `calc_bmesh` does not call `apply_hardness_to_distances`. -/
def bmeshVertexFactor (P : Params) (mat : A44) (pl : Plane)
    (strength : ℚ) (flip : Bool) (p : V3) (v : ℕ) : ℚ :=
  let f0 := fill_factor_from_hide_and_mask (P.hiddenAttr v) (P.maskAttr v)
  let f1 := filter_region_clip_factors (P.inRegion p) f0
  let f2 := if P.brush.frontFace then
      calc_front_face P.cache.viewNormalSymm (P.vertNormal v) f1
    else f1
  let d0 := calc_brush_cube_distance mat p
  let f3 := filter_distances_with_radius 1 d0 f2
  let f4 := BKE_brush_calc_curve_factors P.brush.curvePreset d0 f3
  let f5 := auto_mask_calc_vert_factors (P.automask v) f4
  let f6 := calc_brush_texture_factors (P.texture p) f5
  let f7 := scale_factors f6 strength
  if flip then filter_below_plane_factors pl p f7
  else filter_above_plane_factors pl p f7

/-- `calc_faces` translation before `clip_and_lock_translations`: plane
translation, trim-limit filter on the factor, then factor scaling. -/
def facesTranslationPreClip (P : Params) (mat : A44) (pl : Plane)
    (strength : ℚ) (flip : Bool) (p : V3) (v : ℕ) : V3 :=
  let t := calc_translations_to_plane pl p
  let f := filter_plane_trim_limit_factors P.brush.usePlaneTrim P.brush.planeTrim
      (V3.lenSq t) (facesVertexFactor P mat pl strength flip p v)
  scale_translations t f

/-- `calc_grids` translation before `clip_and_lock_translations`. -/
def gridsTranslationPreClip (P : Params) (mat : A44) (pl : Plane)
    (strength : ℚ) (flip : Bool) (p : V3) (v : ℕ) : V3 :=
  let t := calc_translations_to_plane pl p
  let f := filter_plane_trim_limit_factors P.brush.usePlaneTrim P.brush.planeTrim
      (V3.lenSq t) (gridsVertexFactor P mat pl strength flip p v)
  scale_translations t f

/-- `calc_bmesh` translation before `clip_and_lock_translations`. -/
def bmeshTranslationPreClip (P : Params) (mat : A44) (pl : Plane)
    (strength : ℚ) (flip : Bool) (p : V3) (v : ℕ) : V3 :=
  let t := calc_translations_to_plane pl p
  let f := filter_plane_trim_limit_factors P.brush.usePlaneTrim P.brush.planeTrim
      (V3.lenSq t) (bmeshVertexFactor P mat pl strength flip p v)
  scale_translations t f

/-- Clip and lock a translation with the step's lock and mirror flags. -/
def clipAndLockT (P : Params) (p t : V3) : V3 :=
  clip_and_lock_translations P.lockX P.lockY P.lockZ P.clipX P.clipY P.clipZ p t

/-- New position of one vertex under `calc_faces`
(`position_data.deform` adds the clipped translation). -/
def facesNewPos (P : Params) (mat : A44) (pl : Plane)
    (strength : ℚ) (flip : Bool) (p : V3) (v : ℕ) : V3 :=
  p + clipAndLockT P p (facesTranslationPreClip P mat pl strength flip p v)

/-- New position of one vertex under `calc_grids` (`apply_translations`). -/
def gridsNewPos (P : Params) (mat : A44) (pl : Plane)
    (strength : ℚ) (flip : Bool) (p : V3) (v : ℕ) : V3 :=
  p + clipAndLockT P p (gridsTranslationPreClip P mat pl strength flip p v)

/-- New position of one vertex under `calc_bmesh` (`apply_translations`). -/
def bmeshNewPos (P : Params) (mat : A44) (pl : Plane)
    (strength : ℚ) (flip : Bool) (p : V3) (v : ℕ) : V3 :=
  p + clipAndLockT P p (bmeshTranslationPreClip P mat pl strength flip p v)

/-- Process one node: apply the per-vertex update `g` to the node's own
vertices (each new position depends only on that vertex's old position) and
recompute the node's bounding-box slot, as each dispatched job does in
`do_clay_strips_brush`. -/
def processNodeWith (verts : ℕ → List ℕ) (g : V3 → ℕ → V3)
    (s : State) (i : ℕ) : State :=
  let pos2 := fun v => if v ∈ verts i then g (s.positions v) v else s.positions v
  { positions := pos2
    bounds := fun j => if j = i then boundsOf pos2 (verts i) else s.bounds j }

/-- `flip = (cache.bstrength < 0)` in `do_clay_strips_brush`. -/
def clayStripsFlip (P : Params) : Bool := decide (P.cache.bstrength < 0)

/-- `radius = flip ? -cache.radius : cache.radius`. -/
def clayStripsSignedRadius (P : Params) : ℚ :=
  if clayStripsFlip P then -P.cache.radius else P.cache.radius

/-- `displace = radius * (0.18 + offset)`; the offset models
`SCULPT_brush_plane_offset_get`. -/
def clayStripsDisplace (P : Params) : ℚ :=
  clayStripsSignedRadius P * (18 / 100 + P.brush.planeOffset)

/-- The plane normal after `SCULPT_tilt_apply_to_normal` (external tilt
adjustment applied to the normal computed by `calc_brush_plane`). -/
def clayStripsPlaneNormal (P : Params) : V3 :=
  P.tiltApply P.brushPlaneNormal P.brush.tiltStrength

/-- The reference plane's anchor point:
`area_position += plane_normal * cache.scale * displace`. -/
def clayStripsAnchor (P : Params) : V3 :=
  P.brushPlanePos +
    V3.smul (clayStripsDisplace P) (V3.mulV (clayStripsPlaneNormal P) P.cache.scale)

/-- The area normal: recomputed (with a zero-vector fallback through
`value_or`) when the sculpt-plane mode is not area or the original-normal
flag is set, otherwise the plane normal itself. -/
def clayStripsAreaNormal (P : Params) : V3 :=
  if P.brush.sculptPlaneArea = false ∨ P.brush.originalNormal = true then
    P.areaNormalOpt.getD V3.zero
  else clayStripsPlaneNormal P

/-- `area_position_displaced = area_position + area_normal * -radius * 0.7`. -/
def clayStripsAnchorDisplaced (P : Params) (areaNormal : V3) : V3 :=
  clayStripsAnchor P + V3.smul (-(clayStripsSignedRadius P) * (7 / 10)) areaNormal

/-- The brush-local transform of `do_clay_strips_brush`: basis columns from
cross products of the area normal and the drag delta, located at the
displaced anchor, axis-normalized, scaled by the radius, `y` scaled by the
tip scale, `z` elongated by 1.25, then inverted (world to brush-local). -/
def clayStripsMatFrom (P : Params) (areaNormal : V3) : A44 :=
  let xA := V3.cross areaNormal P.cache.grabDeltaSymm
  let yA := V3.cross areaNormal xA
  let mat0 : A44 := ⟨xA, yA, areaNormal, clayStripsAnchorDisplaced P areaNormal⟩
  let matN := A44.normalizeAxes P.sqrtA mat0
  let tmat1 : A44 := ⟨V3.smul P.cache.radius matN.xAxis,
      V3.smul P.cache.radius matN.yAxis,
      V3.smul P.cache.radius matN.zAxis, matN.loc⟩
  let tmat2 : A44 := { tmat1 with yAxis := V3.smul P.brush.tipScaleX tmat1.yAxis }
  let tmat3 : A44 := { tmat2 with zAxis := V3.smul (5 / 4 : ℚ) tmat2.zAxis }
  A44.invert tmat3

/-- The reference plane: `plane_from_point_normal_v3(plane, area_position,
plane_normal)`. -/
def clayStripsPlane (P : Params) : Plane :=
  planeFromPointNormal (clayStripsAnchor P) (clayStripsPlaneNormal P)

/-- The parallel phase of `do_clay_strips_brush`, with the area normal
threaded explicitly: build the brush-local transform and the plane, then
fold the per-node job over the index mask, choosing the representation
adapter by the tree type. -/
def clayStripsStepFrom (P : Params) (areaNormal : V3) (st : State) : State :=
  let mat := clayStripsMatFrom P areaNormal
  let pl := clayStripsPlane P
  let strength := |P.cache.bstrength|
  let flip := clayStripsFlip P
  match P.pbvhType with
  | PBVHType.Mesh =>
      P.nodeMask.foldl (processNodeWith P.nodeVerts (facesNewPos P mat pl strength flip)) st
  | PBVHType.Grids =>
      P.nodeMask.foldl (processNodeWith P.nodeVerts (gridsNewPos P mat pl strength flip)) st
  | PBVHType.BMesh =>
      P.nodeMask.foldl (processNodeWith P.nodeVerts (bmeshNewPos P mat pl strength flip)) st

/-- `do_clay_strips_brush`: return unchanged (dispatching nothing) when the
symmetry-mirrored drag delta is zero; otherwise run the parallel phase over
the node mask with the computed area normal. -/
def do_clay_strips_brush (P : Params) (st : State) : StepResult :=
  if P.cache.grabDeltaSymm = V3.zero then { state := st, dispatched := [] }
  else
    { state := clayStripsStepFrom P (clayStripsAreaNormal P) st
      dispatched := P.nodeMask }

/-- A default brush configuration used by concrete test inputs. -/
def brush0 : Brush :=
  { frontFace := false, curvePreset := CurvePreset.linear, usePlaneTrim := false,
    planeTrim := 0, tipScaleX := 1, sculptPlaneArea := true, originalNormal := false,
    planeOffset := 0, tiltStrength := 0 }

/-- A default stroke cache used by concrete test inputs (hardness 1/2). -/
def cache0 : StrokeCache :=
  { grabDeltaSymm := ⟨1, 0, 0⟩, bstrength := 1, radius := 1,
    viewNormalSymm := ⟨0, 0, 1⟩, hardness := 1 / 2, scale := ⟨1, 1, 1⟩ }

/-- A concrete step input: two single-vertex nodes, trivial automasking and
texture, no masking or hiding, no locking or clipping. -/
def P0 : Params :=
  { brush := brush0, cache := cache0, pbvhType := PBVHType.Mesh,
    nodeMask := [0, 1],
    nodeVerts := fun i => if i = 0 then [0] else if i = 1 then [1] else [],
    hiddenAttr := fun _ => false, maskAttr := fun _ => 0,
    inRegion := fun _ => true, vertNormal := fun _ => ⟨0, 0, 1⟩,
    automask := fun _ => 1, texture := fun _ => 1,
    brushPlaneNormal := ⟨0, 0, 1⟩, brushPlanePos := V3.zero,
    areaNormalOpt := some ⟨0, 0, 1⟩, tiltApply := fun n _ => n,
    sqrtA := fun _ => 1,
    lockX := false, lockY := false, lockZ := false,
    clipX := false, clipY := false, clipZ := false }

/-- A concrete reference plane `z = 0` with upward normal. -/
def plane0 : Plane := ⟨⟨0, 0, 1⟩, 0⟩

/-- A concrete vertex position below `plane0` at cube distance 1/2. -/
def pTest : V3 := ⟨0, 0, -(1 / 2)⟩

/-- A concrete starting state with all positions at the origin. -/
def st0 : State := { positions := fun _ => V3.zero, bounds := fun _ => none }

/-- `P0` with a subtractive stroke (`bstrength = -1`). -/
def Pneg : Params := { P0 with cache := { cache0 with bstrength := -1 } }

/-- `P0` with a constant falloff curve, a plane-trim limit of 1/2, and
brush strength 2. -/
def brushTrim : Brush :=
  { brush0 with curvePreset := CurvePreset.constant, usePlaneTrim := true, planeTrim := 1 / 2 }

def Ptrim : Params :=
  { P0 with brush := brushTrim, cache := { cache0 with bstrength := 2 } }

/-- `P0` with a sculpt-plane mode that needs a separately computed area
normal, whose computation returned no value. -/
def Pfallback : Params :=
  { P0 with brush := { brush0 with sculptPlaneArea := false }, areaNormalOpt := none }

/-- A scalar move from `a` to `b` does not cross the mirror boundary at 0:
it neither goes from the strictly positive side to the strictly negative
side nor the other way. -/
def noCrossing (a b : ℚ) : Prop := ¬(0 < a ∧ b < 0) ∧ ¬(a < 0 ∧ 0 < b)

/-- `P0` with the X axis locked and mirror clipping on X enabled. -/
def Pclip : Params := { P0 with lockX := true, clipX := true }

/-- `P0` with a zero-strength stroke. -/
def Pzero : Params := { P0 with cache := { cache0 with bstrength := 0 } }

theorem V3.add_def (a b : V3) : a + b = ⟨a.x + b.x, a.y + b.y, a.z + b.z⟩ := rfl

theorem V3.add_zero_right (a : V3) : a + V3.zero = a := by
  cases a
  simp [V3.add_def, V3.zero]

/-- Claim C3: if the stroke's symmetry-mirrored drag delta is the zero
vector, `do_clay_strips_brush` returns at once: the state (all positions
and all node bounds) is unchanged and no node job is dispatched. -/
theorem clay_strips_zero_drag_noop (P : Params) (st : State)
    (h : P.cache.grabDeltaSymm = V3.zero) :
    do_clay_strips_brush P st = { state := st, dispatched := [] } := by
  simp [do_clay_strips_brush, h]

theorem clay_strips_zero_drag_noop_witness :
    do_clay_strips_brush { P0 with cache := { cache0 with grabDeltaSymm := V3.zero } } st0
      = { state := st0, dispatched := [] } :=
  clay_strips_zero_drag_noop _ st0 rfl

/-- Claim C9 counterexample: on a subtractive stroke (`bstrength < 0`,
with unit symmetry scale and zero plane offset) the anchor is displaced by
`-radius × (0.18 + offset)` along the plane normal, not by
`radius × (0.18 + offset)` as the claim states. -/
theorem clay_strips_anchor_claim_counterexample :
    clayStripsAnchor Pneg ≠
      Pneg.brushPlanePos +
        V3.smul (Pneg.cache.radius * (18 / 100 + Pneg.brush.planeOffset))
          (clayStripsPlaneNormal Pneg) := by
  norm_num [clayStripsAnchor, clayStripsDisplace, clayStripsSignedRadius, clayStripsFlip,
    clayStripsPlaneNormal, V3.mulV, V3.smul, V3.add_def, V3.mk.injEq, V3.zero,
    Pneg, P0, brush0, cache0]

/-- Claim C9 (amended): the plane anchor is displaced from the externally
computed plane point along the componentwise product of the plane normal
and the cache's symmetry scale, by the signed radius (negated on
subtractive strokes) times (0.18 + offset); for an additive stroke
(`bstrength ≥ 0`) with unit symmetry scale this is exactly
`radius × (0.18 + offset)` along the plane normal. -/
theorem clay_strips_anchor_displacement (P : Params)
    (h1 : 0 ≤ P.cache.bstrength) (h2 : P.cache.scale = ⟨1, 1, 1⟩) :
    clayStripsAnchor P = P.brushPlanePos +
      V3.smul (P.cache.radius * (18 / 100 + P.brush.planeOffset))
        (clayStripsPlaneNormal P) := by
  have hb : ¬P.cache.bstrength < 0 := not_lt.mpr h1
  have hsr : clayStripsSignedRadius P = P.cache.radius := by
    simp [clayStripsSignedRadius, clayStripsFlip, hb]
  simp only [clayStripsAnchor, clayStripsDisplace, hsr, h2,
    V3.mulV, V3.smul, V3.add_def, V3.mk.injEq]
  refine ⟨by ring, by ring, by ring⟩

theorem clay_strips_anchor_displacement_witness :
    clayStripsAnchor P0 = P0.brushPlanePos +
      V3.smul (P0.cache.radius * (18 / 100 + P0.brush.planeOffset))
        (clayStripsPlaneNormal P0) :=
  clay_strips_anchor_displacement P0 (by norm_num [P0, cache0]) rfl

/-- Claim C10: when the sculpt-plane mode or the original-normal flag
forces a separately computed area normal and that computation returns no
value, `do_clay_strips_brush` substitutes the zero vector for the area
normal and still runs the step (building the brush-local transform from the
zero normal and dispatching every node of the mask) instead of skipping. -/
theorem clay_strips_area_normal_zero_fallback (P : Params) (st : State)
    (h1 : P.brush.sculptPlaneArea = false ∨ P.brush.originalNormal = true)
    (h2 : P.areaNormalOpt = none)
    (h3 : P.cache.grabDeltaSymm ≠ V3.zero) :
    clayStripsAreaNormal P = V3.zero ∧
    do_clay_strips_brush P st =
      { state := clayStripsStepFrom P V3.zero st, dispatched := P.nodeMask } := by
  have hA : clayStripsAreaNormal P = V3.zero := by
    simp [clayStripsAreaNormal, h2, if_pos h1]
  refine ⟨hA, ?_⟩
  unfold do_clay_strips_brush
  rw [if_neg h3, hA]

theorem clay_strips_area_normal_zero_fallback_witness :
    clayStripsAreaNormal Pfallback = V3.zero ∧
    do_clay_strips_brush Pfallback st0 =
      { state := clayStripsStepFrom Pfallback V3.zero st0,
        dispatched := Pfallback.nodeMask } :=
  clay_strips_area_normal_zero_fallback Pfallback st0 (Or.inl rfl) rfl
    (by simp [Pfallback, P0, cache0, V3.zero, V3.mk.injEq])

/-- Claim C1: with identical vertex positions, brush and stroke parameters
(hardness 1/2) and trivial automasking/texture, the translation computed by
the mesh path differs from the one computed by the grids and bmesh paths
(which agree with each other), because only `calc_faces` applies the
hardness remap: the claimed three-way equivalence fails on the code. -/
theorem clay_strips_representation_equivalence_violation :
    facesTranslationPreClip P0 A44.identity plane0 1 false pTest 0 ≠
      gridsTranslationPreClip P0 A44.identity plane0 1 false pTest 0 ∧
    bmeshTranslationPreClip P0 A44.identity plane0 1 false pTest 0 =
      gridsTranslationPreClip P0 A44.identity plane0 1 false pTest 0 := by
  norm_num [facesTranslationPreClip, gridsTranslationPreClip, bmeshTranslationPreClip,
    facesVertexFactor, gridsVertexFactor, bmeshVertexFactor,
    calc_translations_to_plane, filter_plane_trim_limit_factors, scale_translations,
    fill_factor_from_hide_and_mask, filter_region_clip_factors,
    calc_front_face, calc_brush_cube_distance, filter_distances_with_radius,
    apply_hardness_to_distances, BKE_brush_calc_curve_factors, BKE_brush_calc_curve_factor,
    auto_mask_calc_vert_factors, calc_brush_texture_factors, scale_factors,
    filter_below_plane_factors, filter_above_plane_factors, planeSide, V3.dot, V3.lenSq,
    A44.transformPoint, A44.identity, V3.smul, V3.add_def, clamp01, P0, brush0, cache0,
    plane0, pTest, V3.zero, max_def, min_def, abs, V3.mk.injEq]

/-- Claim C2: the hardness remap sits between the radius filter and the
curve remap only in the mesh path; at hardness 1/2 and cube distance 1/2
the mesh factor is 1 (curve evaluated at the remapped distance 0), while
the grids and bmesh factors are 1/2 (curve evaluated at the raw distance):
`calc_grids` and `calc_bmesh` omit `apply_hardness_to_distances`. -/
theorem clay_strips_hardness_stage_divergence :
    facesVertexFactor P0 A44.identity plane0 1 false pTest 0 = 1 ∧
    gridsVertexFactor P0 A44.identity plane0 1 false pTest 0 = 1 / 2 ∧
    bmeshVertexFactor P0 A44.identity plane0 1 false pTest 0 = 1 / 2 := by
  norm_num [facesVertexFactor, gridsVertexFactor, bmeshVertexFactor,
    fill_factor_from_hide_and_mask, filter_region_clip_factors,
    calc_front_face, calc_brush_cube_distance, filter_distances_with_radius,
    apply_hardness_to_distances, BKE_brush_calc_curve_factors, BKE_brush_calc_curve_factor,
    auto_mask_calc_vert_factors, calc_brush_texture_factors, scale_factors,
    filter_below_plane_factors, filter_above_plane_factors, planeSide, V3.dot,
    A44.transformPoint, A44.identity, V3.smul, V3.add_def, clamp01, P0, brush0, cache0,
    plane0, pTest, V3.zero, max_def, min_def, abs]

theorem curve_factor_mem (preset : CurvePreset) (d : ℚ) :
    0 ≤ BKE_brush_calc_curve_factor preset d ∧ BKE_brush_calc_curve_factor preset d ≤ 1 := by
  cases preset <;>
    simp only [BKE_brush_calc_curve_factor, clamp01] <;>
    constructor <;>
    first
      | exact le_max_left 0 _
      | exact max_le (by norm_num) (min_le_left 1 _)
      | norm_num

theorem interval_fill (hidden : Bool) {m : ℚ} (h0 : 0 ≤ m) (h1 : m ≤ 1) :
    0 ≤ fill_factor_from_hide_and_mask hidden m ∧
    fill_factor_from_hide_and_mask hidden m ≤ 1 := by
  unfold fill_factor_from_hide_and_mask
  split <;> constructor <;> linarith

theorem interval_region (b : Bool) {f c : ℚ} (h : 0 ≤ f ∧ f ≤ c) :
    0 ≤ filter_region_clip_factors b f ∧ filter_region_clip_factors b f ≤ c := by
  unfold filter_region_clip_factors
  split
  · exact h
  · exact ⟨le_refl 0, le_trans h.1 h.2⟩

theorem interval_front (vn n : V3) {f c : ℚ} (h : 0 ≤ f ∧ f ≤ c) :
    0 ≤ calc_front_face vn n f ∧ calc_front_face vn n f ≤ c := by
  unfold calc_front_face
  split
  · exact ⟨le_refl 0, le_trans h.1 h.2⟩
  · exact h

theorem interval_front_branch (b : Bool) (vn n : V3) {f c : ℚ} (h : 0 ≤ f ∧ f ≤ c) :
    0 ≤ (if b then calc_front_face vn n f else f) ∧
    (if b then calc_front_face vn n f else f) ≤ c := by
  cases b
  · exact h
  · exact interval_front vn n h

theorem interval_radius (r d : ℚ) {f c : ℚ} (h : 0 ≤ f ∧ f ≤ c) :
    0 ≤ filter_distances_with_radius r d f ∧ filter_distances_with_radius r d f ≤ c := by
  unfold filter_distances_with_radius
  split
  · exact ⟨le_refl 0, le_trans h.1 h.2⟩
  · exact h

theorem interval_curve (preset : CurvePreset) (d : ℚ) {f : ℚ} (h : 0 ≤ f ∧ f ≤ 1) :
    0 ≤ BKE_brush_calc_curve_factors preset d f ∧
    BKE_brush_calc_curve_factors preset d f ≤ 1 := by
  obtain ⟨c0, c1⟩ := curve_factor_mem preset d
  unfold BKE_brush_calc_curve_factors
  exact ⟨mul_nonneg h.1 c0, mul_le_one₀ h.2 c0 c1⟩

theorem interval_automask {am f : ℚ} (ha0 : 0 ≤ am) (ha1 : am ≤ 1) (h : 0 ≤ f ∧ f ≤ 1) :
    0 ≤ auto_mask_calc_vert_factors am f ∧ auto_mask_calc_vert_factors am f ≤ 1 := by
  unfold auto_mask_calc_vert_factors
  exact ⟨mul_nonneg h.1 ha0, mul_le_one₀ h.2 ha0 ha1⟩

theorem interval_texture {tex f : ℚ} (ht0 : 0 ≤ tex) (ht1 : tex ≤ 1) (h : 0 ≤ f ∧ f ≤ 1) :
    0 ≤ calc_brush_texture_factors tex f ∧ calc_brush_texture_factors tex f ≤ 1 := by
  unfold calc_brush_texture_factors
  exact ⟨mul_nonneg h.1 ht0, mul_le_one₀ h.2 ht0 ht1⟩

theorem interval_scale {f s : ℚ} (h : 0 ≤ f ∧ f ≤ 1) (hs : 0 ≤ s) :
    0 ≤ scale_factors f s ∧ scale_factors f s ≤ s := by
  unfold scale_factors
  exact ⟨mul_nonneg h.1 hs, mul_le_of_le_one_left hs h.2⟩

theorem interval_below (pl : Plane) (p : V3) {f c : ℚ} (h : 0 ≤ f ∧ f ≤ c) :
    0 ≤ filter_below_plane_factors pl p f ∧ filter_below_plane_factors pl p f ≤ c := by
  unfold filter_below_plane_factors
  split
  · exact ⟨le_refl 0, le_trans h.1 h.2⟩
  · exact h

theorem interval_above (pl : Plane) (p : V3) {f c : ℚ} (h : 0 ≤ f ∧ f ≤ c) :
    0 ≤ filter_above_plane_factors pl p f ∧ filter_above_plane_factors pl p f ≤ c := by
  unfold filter_above_plane_factors
  split
  · exact ⟨le_refl 0, le_trans h.1 h.2⟩
  · exact h

theorem interval_trim (u : Bool) (L tsq : ℚ) {f c : ℚ} (h : 0 ≤ f ∧ f ≤ c) :
    0 ≤ filter_plane_trim_limit_factors u L tsq f ∧
    filter_plane_trim_limit_factors u L tsq f ≤ c := by
  unfold filter_plane_trim_limit_factors
  split
  · exact ⟨le_refl 0, le_trans h.1 h.2⟩
  · exact h

theorem facesVertexFactor_bounds (P : Params) (mat : A44) (pl : Plane)
    (strength : ℚ) (flip : Bool) (p : V3) (v : ℕ)
    (hm0 : 0 ≤ P.maskAttr v) (hm1 : P.maskAttr v ≤ 1)
    (ha0 : 0 ≤ P.automask v) (ha1 : P.automask v ≤ 1)
    (ht0 : 0 ≤ P.texture p) (ht1 : P.texture p ≤ 1)
    (hs : 0 ≤ strength) :
    0 ≤ facesVertexFactor P mat pl strength flip p v ∧
    facesVertexFactor P mat pl strength flip p v ≤ strength := by
  have H := interval_scale
    (interval_texture ht0 ht1
      (interval_automask ha0 ha1
        (interval_curve P.brush.curvePreset
          (apply_hardness_to_distances 1 P.cache.hardness (calc_brush_cube_distance mat p))
          (interval_radius 1 (calc_brush_cube_distance mat p)
            (interval_front_branch P.brush.frontFace P.cache.viewNormalSymm (P.vertNormal v)
              (interval_region (P.inRegion p)
                (interval_fill (P.hiddenAttr v) hm0 hm1))))))) hs
  simp only [facesVertexFactor]
  cases flip
  · exact interval_above pl p H
  · exact interval_below pl p H

/-- Claim C8: with the external collaborators honoring their contracts
(mask, automasking weight and texture sample in `[0,1]`), the factor
pipeline of `calc_faces` produces a per-vertex weight in
`[0, strength]` for `strength = |bstrength|` (multiplied in near the end),
and every filtering stage of the pipeline — region clip, front-face cull,
radius filter, plane-side filters, trim-limit filter — and every
multiplicative remap stage — curve, automask (weight in `[0,1]`), texture
(sample in `[0,1]`) — only reduces or preserves a nonnegative running
factor. -/
theorem clay_strips_factor_pipeline_bounds (P : Params) (mat : A44) (pl : Plane)
    (flip : Bool) (p : V3) (v : ℕ)
    (hm0 : 0 ≤ P.maskAttr v) (hm1 : P.maskAttr v ≤ 1)
    (ha0 : 0 ≤ P.automask v) (ha1 : P.automask v ≤ 1)
    (ht0 : 0 ≤ P.texture p) (ht1 : P.texture p ≤ 1) :
    (0 ≤ facesVertexFactor P mat pl |P.cache.bstrength| flip p v ∧
     facesVertexFactor P mat pl |P.cache.bstrength| flip p v ≤ |P.cache.bstrength|) ∧
    (∀ (b : Bool) (f : ℚ), 0 ≤ f → filter_region_clip_factors b f ≤ f) ∧
    (∀ (vn n : V3) (f : ℚ), 0 ≤ f → calc_front_face vn n f ≤ f) ∧
    (∀ (r d f : ℚ), 0 ≤ f → filter_distances_with_radius r d f ≤ f) ∧
    (∀ (q : Plane) (w : V3) (f : ℚ), 0 ≤ f →
      filter_below_plane_factors q w f ≤ f ∧ filter_above_plane_factors q w f ≤ f) ∧
    (∀ (u : Bool) (L tsq f : ℚ), 0 ≤ f → filter_plane_trim_limit_factors u L tsq f ≤ f) ∧
    (∀ (preset : CurvePreset) (d f : ℚ), 0 ≤ f → BKE_brush_calc_curve_factors preset d f ≤ f) ∧
    (∀ (am f : ℚ), 0 ≤ am → am ≤ 1 → 0 ≤ f → auto_mask_calc_vert_factors am f ≤ f) ∧
    (∀ (tex f : ℚ), 0 ≤ tex → tex ≤ 1 → 0 ≤ f → calc_brush_texture_factors tex f ≤ f) := by
  refine ⟨facesVertexFactor_bounds P mat pl |P.cache.bstrength| flip p v
      hm0 hm1 ha0 ha1 ht0 ht1 (abs_nonneg _), ?_, ?_, ?_, ?_, ?_, ?_, ?_, ?_⟩
  · intro b f hf
    unfold filter_region_clip_factors
    split <;> simp [hf]
  · intro vn n f hf
    unfold calc_front_face
    split <;> simp [hf]
  · intro r d f hf
    unfold filter_distances_with_radius
    split <;> simp [hf]
  · intro q w f hf
    constructor
    · unfold filter_below_plane_factors
      split <;> simp [hf]
    · unfold filter_above_plane_factors
      split <;> simp [hf]
  · intro u L tsq f hf
    unfold filter_plane_trim_limit_factors
    split <;> simp [hf]
  · intro preset d f hf
    obtain ⟨c0, c1⟩ := curve_factor_mem preset d
    unfold BKE_brush_calc_curve_factors
    exact mul_le_of_le_one_right hf c1
  · intro am f ha0a ha1a hf
    unfold auto_mask_calc_vert_factors
    exact mul_le_of_le_one_right hf ha1a
  · intro tex f ht0a ht1a hf
    unfold calc_brush_texture_factors
    exact mul_le_of_le_one_right hf ht1a

theorem clay_strips_factor_pipeline_bounds_witness :
    (0 ≤ facesVertexFactor P0 A44.identity plane0 |P0.cache.bstrength| false pTest 0 ∧
     facesVertexFactor P0 A44.identity plane0 |P0.cache.bstrength| false pTest 0 ≤
       |P0.cache.bstrength|) ∧
    filter_region_clip_factors true (1 / 2) ≤ 1 / 2 ∧
    calc_front_face V3.zero V3.zero (1 / 2) ≤ 1 / 2 ∧
    filter_distances_with_radius 1 2 (1 / 2) ≤ 1 / 2 ∧
    filter_below_plane_factors plane0 pTest (1 / 2) ≤ 1 / 2 ∧
    filter_plane_trim_limit_factors true 1 2 (1 / 2) ≤ 1 / 2 ∧
    BKE_brush_calc_curve_factors CurvePreset.linear (1 / 2) (1 / 2) ≤ 1 / 2 ∧
    auto_mask_calc_vert_factors (1 / 2) (1 / 2) ≤ 1 / 2 ∧
    calc_brush_texture_factors (1 / 2) (1 / 2) ≤ 1 / 2 := by
  obtain ⟨h1, h2, h3, h4, h5, h6, h7, h8, h9⟩ :=
    clay_strips_factor_pipeline_bounds P0 A44.identity plane0 false pTest 0
      (by norm_num [P0]) (by norm_num [P0]) (by norm_num [P0]) (by norm_num [P0])
      (by norm_num [P0]) (by norm_num [P0])
  refine ⟨h1, h2 true (1 / 2) (by norm_num), h3 V3.zero V3.zero (1 / 2) (by norm_num),
    h4 1 2 (1 / 2) (by norm_num), (h5 plane0 pTest (1 / 2) (by norm_num)).1,
    h6 true 1 2 (1 / 2) (by norm_num), h7 CurvePreset.linear (1 / 2) (1 / 2) (by norm_num),
    h8 (1 / 2) (1 / 2) (by norm_num) (by norm_num) (by norm_num),
    h9 (1 / 2) (1 / 2) (by norm_num) (by norm_num) (by norm_num)⟩

theorem V3.lenSq_nonneg (a : V3) : 0 ≤ V3.lenSq a := by
  unfold V3.lenSq V3.dot
  nlinarith [mul_self_nonneg a.x, mul_self_nonneg a.y, mul_self_nonneg a.z]

theorem V3.lenSq_smul (c : ℚ) (a : V3) :
    V3.lenSq (V3.smul c a) = c ^ 2 * V3.lenSq a := by
  unfold V3.lenSq V3.dot V3.smul
  ring

/-- Claim C6 counterexample: with a plane-trim limit of 1/2 configured and
brush strength 2, the vertex at `pTest` gets a pre-clip-lock translation of
squared length 1, exceeding the squared limit 1/4 — so its magnitude
exceeds the limit, refuting the claim as stated. -/
theorem clay_strips_plane_trim_claim_counterexample :
    Ptrim.brush.usePlaneTrim = true ∧
    Ptrim.brush.planeTrim = 1 / 2 ∧
    Ptrim.brush.planeTrim ^ 2 <
      V3.lenSq (facesTranslationPreClip Ptrim A44.identity plane0 2 false pTest 0) := by
  norm_num [facesTranslationPreClip, facesVertexFactor,
    calc_translations_to_plane, filter_plane_trim_limit_factors, scale_translations,
    fill_factor_from_hide_and_mask, filter_region_clip_factors,
    calc_front_face, calc_brush_cube_distance, filter_distances_with_radius,
    apply_hardness_to_distances, BKE_brush_calc_curve_factors, BKE_brush_calc_curve_factor,
    auto_mask_calc_vert_factors, calc_brush_texture_factors, scale_factors,
    filter_below_plane_factors, filter_above_plane_factors, planeSide, V3.dot, V3.lenSq,
    A44.transformPoint, A44.identity, V3.smul, V3.add_def, clamp01,
    Ptrim, brushTrim, P0, brush0, cache0, plane0, pTest, V3.zero, max_def, min_def, abs]

/-- Claim C6 (amended): with a plane-trim limit L configured, the squared
pre-clip-lock translation of every vertex in the mesh path is at most
`(strength × L)²` — the trim filter zeroes any vertex whose plane
translation exceeds L, and the surviving translations are scaled by a
factor in `[0, strength]`; in particular the original bound L holds
whenever `strength ≤ 1`. -/
theorem clay_strips_plane_trim_strength_bound (P : Params) (mat : A44) (pl : Plane)
    (strength : ℚ) (flip : Bool) (p : V3) (v : ℕ)
    (hu : P.brush.usePlaneTrim = true)
    (hm0 : 0 ≤ P.maskAttr v) (hm1 : P.maskAttr v ≤ 1)
    (ha0 : 0 ≤ P.automask v) (ha1 : P.automask v ≤ 1)
    (ht0 : 0 ≤ P.texture p) (ht1 : P.texture p ≤ 1)
    (hs : 0 ≤ strength) :
    V3.lenSq (facesTranslationPreClip P mat pl strength flip p v) ≤
      (strength * P.brush.planeTrim) ^ 2 := by
  obtain ⟨hf0, hfs⟩ := facesVertexFactor_bounds P mat pl strength flip p v
    hm0 hm1 ha0 ha1 ht0 ht1 hs
  simp only [facesTranslationPreClip, scale_translations, V3.lenSq_smul]
  unfold filter_plane_trim_limit_factors
  split
  · simpa using sq_nonneg (strength * P.brush.planeTrim)
  · rename_i hcond
    have hle : V3.lenSq (calc_translations_to_plane pl p) ≤ P.brush.planeTrim ^ 2 := by
      by_contra hgt
      exact hcond ⟨hu, lt_of_not_le fun hx => hgt (by linarith)⟩
    calc facesVertexFactor P mat pl strength flip p v ^ 2 *
          V3.lenSq (calc_translations_to_plane pl p)
        ≤ strength ^ 2 * P.brush.planeTrim ^ 2 := by
          apply mul_le_mul _ hle (V3.lenSq_nonneg _) (sq_nonneg _)
          exact pow_le_pow_left₀ hf0 hfs 2
      _ = (strength * P.brush.planeTrim) ^ 2 := by ring

theorem clay_strips_plane_trim_strength_bound_witness :
    V3.lenSq (facesTranslationPreClip Ptrim A44.identity plane0 2 false pTest 0) ≤
      (2 * Ptrim.brush.planeTrim) ^ 2 :=
  clay_strips_plane_trim_strength_bound Ptrim A44.identity plane0 2 false pTest 0
    rfl (by norm_num [Ptrim, P0]) (by norm_num [Ptrim, P0]) (by norm_num [Ptrim, P0])
    (by norm_num [Ptrim, P0]) (by norm_num [Ptrim, P0]) (by norm_num [Ptrim, P0])
    (by norm_num)

theorem facesVertexFactor_strength_zero (P : Params) (mat : A44) (pl : Plane)
    (flip : Bool) (p : V3) (v : ℕ) :
    facesVertexFactor P mat pl 0 flip p v = 0 := by
  simp [facesVertexFactor, scale_factors, filter_below_plane_factors,
    filter_above_plane_factors, mul_zero, ite_self]

theorem gridsVertexFactor_strength_zero (P : Params) (mat : A44) (pl : Plane)
    (flip : Bool) (p : V3) (v : ℕ) :
    gridsVertexFactor P mat pl 0 flip p v = 0 := by
  simp [gridsVertexFactor, scale_factors, filter_below_plane_factors,
    filter_above_plane_factors, mul_zero, ite_self]

theorem bmeshVertexFactor_strength_zero (P : Params) (mat : A44) (pl : Plane)
    (flip : Bool) (p : V3) (v : ℕ) :
    bmeshVertexFactor P mat pl 0 flip p v = 0 := by
  simp [bmeshVertexFactor, scale_factors, filter_below_plane_factors,
    filter_above_plane_factors, mul_zero, ite_self]

theorem V3.smul_zero_c (a : V3) : V3.smul 0 a = V3.zero := by
  simp [V3.smul, V3.zero]

theorem facesTranslationPreClip_strength_zero (P : Params) (mat : A44) (pl : Plane)
    (flip : Bool) (p : V3) (v : ℕ) :
    facesTranslationPreClip P mat pl 0 flip p v = V3.zero := by
  simp [facesTranslationPreClip, facesVertexFactor_strength_zero,
    filter_plane_trim_limit_factors, ite_self, scale_translations, V3.smul_zero_c]

theorem gridsTranslationPreClip_strength_zero (P : Params) (mat : A44) (pl : Plane)
    (flip : Bool) (p : V3) (v : ℕ) :
    gridsTranslationPreClip P mat pl 0 flip p v = V3.zero := by
  simp [gridsTranslationPreClip, gridsVertexFactor_strength_zero,
    filter_plane_trim_limit_factors, ite_self, scale_translations, V3.smul_zero_c]

theorem bmeshTranslationPreClip_strength_zero (P : Params) (mat : A44) (pl : Plane)
    (flip : Bool) (p : V3) (v : ℕ) :
    bmeshTranslationPreClip P mat pl 0 flip p v = V3.zero := by
  simp [bmeshTranslationPreClip, bmeshVertexFactor_strength_zero,
    filter_plane_trim_limit_factors, ite_self, scale_translations, V3.smul_zero_c]

theorem clip_axis_component_zero (lock clip : Bool) (a : ℚ) :
    clip_axis_component lock clip a 0 = 0 := by
  unfold clip_axis_component
  split_ifs with h1 h2
  · rfl
  · rcases h2.2 with ⟨u, w⟩ | ⟨u, w⟩ <;> linarith
  · rfl

theorem clipAndLockT_zero (P : Params) (p : V3) :
    clipAndLockT P p V3.zero = V3.zero := by
  simp [clipAndLockT, clip_and_lock_translations, V3.zero, clip_axis_component_zero]

theorem facesNewPos_strength_zero (P : Params) (mat : A44) (pl : Plane)
    (flip : Bool) (p : V3) (v : ℕ) :
    facesNewPos P mat pl 0 flip p v = p := by
  rw [facesNewPos, facesTranslationPreClip_strength_zero, clipAndLockT_zero,
    V3.add_zero_right]

theorem gridsNewPos_strength_zero (P : Params) (mat : A44) (pl : Plane)
    (flip : Bool) (p : V3) (v : ℕ) :
    gridsNewPos P mat pl 0 flip p v = p := by
  rw [gridsNewPos, gridsTranslationPreClip_strength_zero, clipAndLockT_zero,
    V3.add_zero_right]

theorem bmeshNewPos_strength_zero (P : Params) (mat : A44) (pl : Plane)
    (flip : Bool) (p : V3) (v : ℕ) :
    bmeshNewPos P mat pl 0 flip p v = p := by
  rw [bmeshNewPos, bmeshTranslationPreClip_strength_zero, clipAndLockT_zero,
    V3.add_zero_right]

theorem foldl_process_positions_id (verts : ℕ → List ℕ) (g : V3 → ℕ → V3)
    (hg : ∀ p v, g p v = p) (mask : List ℕ) (s : State) (v : ℕ) :
    (mask.foldl (processNodeWith verts g) s).positions v = s.positions v := by
  induction mask generalizing s with
  | nil => rfl
  | cons i t ih =>
      rw [List.foldl_cons, ih]
      simp [processNodeWith, hg]

/-- Claim C4: a stroke step with brush strength 0 leaves every vertex
position unchanged — the strength multiplication drives every per-vertex
factor, and hence every applied translation, to zero in all three
representation paths. -/
theorem clay_strips_zero_strength_fixed_positions (P : Params) (st : State)
    (h : P.cache.bstrength = 0) (v : ℕ) :
    (do_clay_strips_brush P st).state.positions v = st.positions v := by
  unfold do_clay_strips_brush
  split
  · rfl
  · have habs : |P.cache.bstrength| = 0 := by rw [h, abs_zero]
    simp only [clayStripsStepFrom, habs]
    cases hpt : P.pbvhType <;> simp only [hpt]
    · exact foldl_process_positions_id _ _
        (fun p w => facesNewPos_strength_zero P _ _ _ p w) _ st v
    · exact foldl_process_positions_id _ _
        (fun p w => gridsNewPos_strength_zero P _ _ _ p w) _ st v
    · exact foldl_process_positions_id _ _
        (fun p w => bmeshNewPos_strength_zero P _ _ _ p w) _ st v

theorem clay_strips_zero_strength_fixed_positions_witness :
    (do_clay_strips_brush Pzero st0).state.positions 0 = st0.positions 0 :=
  clay_strips_zero_strength_fixed_positions Pzero st0 rfl 0

theorem State.ext_of (a b : State) (h1 : a.positions = b.positions)
    (h2 : a.bounds = b.bounds) : a = b := by
  cases a
  cases b
  simp_all

theorem boundsFold_congr (p q : ℕ → V3) :
    ∀ (l : List ℕ), (∀ v ∈ l, p v = q v) →
    ∀ acc : Option (V3 × V3), l.foldl (boundsStep p) acc = l.foldl (boundsStep q) acc := by
  intro l
  induction l with
  | nil => intro _ acc; rfl
  | cons a t ih =>
      intro h acc
      rw [List.foldl_cons, List.foldl_cons]
      have ha : boundsStep p acc a = boundsStep q acc a := by
        unfold boundsStep
        rw [h a (List.mem_cons_self a t)]
      rw [ha]
      exact ih (fun v hv => h v (List.mem_cons_of_mem a hv)) _

theorem boundsOf_congr (p q : ℕ → V3) (l : List ℕ) (h : ∀ v ∈ l, p v = q v) :
    boundsOf p l = boundsOf q l := by
  unfold boundsOf
  exact boundsFold_congr p q l h none

theorem foldl_process_positions_char (verts : ℕ → List ℕ) (g : V3 → ℕ → V3) :
    ∀ (mask : List ℕ), mask.Nodup →
    (∀ a ∈ mask, ∀ b ∈ mask, a ≠ b → ∀ w ∈ verts a, w ∉ verts b) →
    ∀ (s : State) (v : ℕ),
    (mask.foldl (processNodeWith verts g) s).positions v =
      if ∃ i ∈ mask, v ∈ verts i then g (s.positions v) v else s.positions v := by
  intro mask
  induction mask with
  | nil =>
      intro _ _ s v
      simp
  | cons i t ih =>
      intro hnd hdisj s v
      obtain ⟨hi, hnd2⟩ := List.nodup_cons.mp hnd
      have hdisj2 : ∀ a ∈ t, ∀ b ∈ t, a ≠ b → ∀ w ∈ verts a, w ∉ verts b :=
        fun a ha b hb => hdisj a (List.mem_cons_of_mem i ha) b (List.mem_cons_of_mem i hb)
      rw [List.foldl_cons, ih hnd2 hdisj2]
      by_cases hv : v ∈ verts i
      · have hnot : ¬∃ j ∈ t, v ∈ verts j := by
          rintro ⟨j, hj, hvj⟩
          refine hdisj i (List.mem_cons_self i t) j (List.mem_cons_of_mem i hj) ?_ v hv hvj
          intro he
          exact hi (he ▸ hj)
        rw [if_neg hnot, if_pos ⟨i, List.mem_cons_self i t, hv⟩]
        simp [processNodeWith, hv]
      · have hps : (processNodeWith verts g s i).positions v = s.positions v := by
          simp [processNodeWith, hv]
        rw [hps]
        have hiff : (∃ j ∈ t, v ∈ verts j) ↔ (∃ j ∈ i :: t, v ∈ verts j) := by
          constructor
          · rintro ⟨j, hj, hvj⟩
            exact ⟨j, List.mem_cons_of_mem i hj, hvj⟩
          · rintro ⟨j, hj, hvj⟩
            rcases List.mem_cons.mp hj with rfl | hj2
            · exact absurd hvj hv
            · exact ⟨j, hj2, hvj⟩
        simp only [hiff]

theorem foldl_process_bounds_char (verts : ℕ → List ℕ) (g : V3 → ℕ → V3) :
    ∀ (mask : List ℕ), mask.Nodup →
    (∀ a ∈ mask, ∀ b ∈ mask, a ≠ b → ∀ w ∈ verts a, w ∉ verts b) →
    ∀ (s : State) (j : ℕ),
    (mask.foldl (processNodeWith verts g) s).bounds j =
      if j ∈ mask then boundsOf (fun w => g (s.positions w) w) (verts j)
      else s.bounds j := by
  intro mask
  induction mask with
  | nil =>
      intro _ _ s j
      simp
  | cons i t ih =>
      intro hnd hdisj s j
      obtain ⟨hi, hnd2⟩ := List.nodup_cons.mp hnd
      have hdisj2 : ∀ a ∈ t, ∀ b ∈ t, a ≠ b → ∀ w ∈ verts a, w ∉ verts b :=
        fun a ha b hb => hdisj a (List.mem_cons_of_mem i ha) b (List.mem_cons_of_mem i hb)
      rw [List.foldl_cons, ih hnd2 hdisj2]
      by_cases hji : j = i
      · subst hji
        rw [if_neg hi, if_pos (List.mem_cons_self j t)]
        show (processNodeWith verts g s j).bounds j = _
        simp only [processNodeWith, if_pos rfl]
        apply boundsOf_congr
        intro w hw
        rw [if_pos hw]
      · by_cases hjt : j ∈ t
        · rw [if_pos hjt, if_pos (List.mem_cons_of_mem i hjt)]
          apply boundsOf_congr
          intro w hw
          have hwi : w ∉ verts i := by
            intro hwin
            exact hdisj j (List.mem_cons_of_mem i hjt) i (List.mem_cons_self i t) hji w hw hwin
          have hsw : (processNodeWith verts g s i).positions w = s.positions w := by
            simp [processNodeWith, hwi]
          rw [hsw]
        · rw [if_neg hjt, if_neg ?_]
          · simp [processNodeWith, hji]
          · intro hmem
            rcases List.mem_cons.mp hmem with rfl | hh
            · exact hji rfl
            · exact hjt hh

/-- Claim C5: processing the touched nodes of one stroke step in any
permutation of the index mask yields identical final vertex positions and
node bounds, because each node writes a disjoint slice of the position
buffer (given by its own vertex list) and its own bounds slot. -/
theorem clay_strips_order_independence (P : Params) (m2 : List ℕ) (st : State)
    (hperm : m2.Perm P.nodeMask)
    (hnd : P.nodeMask.Nodup)
    (hdisj : ∀ a ∈ P.nodeMask, ∀ b ∈ P.nodeMask, a ≠ b →
      ∀ w ∈ P.nodeVerts a, w ∉ P.nodeVerts b) :
    (do_clay_strips_brush { P with nodeMask := m2 } st).state =
      (do_clay_strips_brush P st).state := by
  have hnd2 : m2.Nodup := hperm.nodup_iff.mpr hnd
  have hmem : ∀ x : ℕ, x ∈ m2 ↔ x ∈ P.nodeMask := fun x => hperm.mem_iff
  have hdisj2 : ∀ a ∈ m2, ∀ b ∈ m2, a ≠ b → ∀ w ∈ P.nodeVerts a, w ∉ P.nodeVerts b :=
    fun a ha b hb => hdisj a ((hmem a).mp ha) b ((hmem b).mp hb)
  have e0 : clayStripsAreaNormal { P with nodeMask := m2 } = clayStripsAreaNormal P := rfl
  have e1 : clayStripsMatFrom { P with nodeMask := m2 } = clayStripsMatFrom P := rfl
  have e2 : clayStripsPlane { P with nodeMask := m2 } = clayStripsPlane P := rfl
  have e3 : clayStripsFlip { P with nodeMask := m2 } = clayStripsFlip P := rfl
  have e4 : facesNewPos { P with nodeMask := m2 } = facesNewPos P := rfl
  have e5 : gridsNewPos { P with nodeMask := m2 } = gridsNewPos P := rfl
  have e6 : bmeshNewPos { P with nodeMask := m2 } = bmeshNewPos P := rfl
  simp only [do_clay_strips_brush, clayStripsStepFrom, e0, e1, e2, e3, e4, e5, e6]
  split
  · rfl
  · cases hpt : P.pbvhType <;> simp only [hpt]
    all_goals
      refine State.ext_of _ _ (funext fun v => ?_) (funext fun j => ?_)
    all_goals
      try {
        rw [foldl_process_positions_char P.nodeVerts _ m2 hnd2 hdisj2 st v,
          foldl_process_positions_char P.nodeVerts _ P.nodeMask hnd hdisj st v]
        have hiff : (∃ i ∈ m2, v ∈ P.nodeVerts i) ↔ (∃ i ∈ P.nodeMask, v ∈ P.nodeVerts i) := by
          constructor <;> rintro ⟨i, hi, hvi⟩
          · exact ⟨i, (hmem i).mp hi, hvi⟩
          · exact ⟨i, (hmem i).mpr hi, hvi⟩
        simp only [hiff]
      }
    all_goals
      rw [foldl_process_bounds_char P.nodeVerts _ m2 hnd2 hdisj2 st j,
        foldl_process_bounds_char P.nodeVerts _ P.nodeMask hnd hdisj st j]
      simp only [hmem j]

theorem clay_strips_order_independence_witness :
    (do_clay_strips_brush { P0 with nodeMask := [1, 0] } st0).state =
      (do_clay_strips_brush P0 st0).state :=
  clay_strips_order_independence P0 [1, 0] st0 (by decide) (by decide) (by decide)

theorem noCrossing_refl (a : ℚ) : noCrossing a a := by
  constructor <;> rintro ⟨u, w⟩ <;> linarith

theorem clip_axis_no_crossing (lock : Bool) (a t : ℚ) :
    noCrossing a (a + clip_axis_component lock true a t) := by
  unfold noCrossing clip_axis_component
  split_ifs with h1 h2
  · constructor <;> rintro ⟨u, w⟩ <;> linarith
  · constructor <;> rintro ⟨u, w⟩ <;> linarith
  · constructor
    · rintro ⟨u, w⟩
      exact h2 ⟨rfl, Or.inl ⟨u, w⟩⟩
    · rintro ⟨u, w⟩
      exact h2 ⟨rfl, Or.inr ⟨u, w⟩⟩

theorem newPos_x_noCrossing (P : Params) (p t : V3) (hc : P.clipX = true) :
    noCrossing p.x ((p + clipAndLockT P p t) : V3).x := by
  have h := clip_axis_no_crossing P.lockX p.x t.x
  simp only [clipAndLockT, clip_and_lock_translations, V3.add_def, hc]
  exact h

theorem clip_axis_component_locked (clip : Bool) (a t : ℚ) :
    clip_axis_component true clip a t = 0 := by
  simp [clip_axis_component]

theorem newPos_x_locked (P : Params) (p t : V3) (hl : P.lockX = true) :
    ((p + clipAndLockT P p t) : V3).x = p.x := by
  simp [clipAndLockT, clip_and_lock_translations, V3.add_def, hl,
    clip_axis_component_locked]

theorem newPos_y_locked (P : Params) (p t : V3) (hl : P.lockY = true) :
    ((p + clipAndLockT P p t) : V3).y = p.y := by
  simp [clipAndLockT, clip_and_lock_translations, V3.add_def, hl,
    clip_axis_component_locked]

theorem newPos_z_locked (P : Params) (p t : V3) (hl : P.lockZ = true) :
    ((p + clipAndLockT P p t) : V3).z = p.z := by
  simp [clipAndLockT, clip_and_lock_translations, V3.add_def, hl,
    clip_axis_component_locked]

theorem foldl_process_positions_comp_inv (verts : ℕ → List ℕ) (g : V3 → ℕ → V3)
    (f : V3 → ℚ) (hg : ∀ p v, f (g p v) = f p) (mask : List ℕ) (s : State) (v : ℕ) :
    f ((mask.foldl (processNodeWith verts g) s).positions v) = f (s.positions v) := by
  induction mask generalizing s with
  | nil => rfl
  | cons i t ih =>
      rw [List.foldl_cons, ih]
      show f ((processNodeWith verts g s i).positions v) = f (s.positions v)
      simp only [processNodeWith]
      split
      · exact hg _ _
      · rfl

/-- Claim C7: after one stroke step, a locked world axis leaves that
component of every vertex position unchanged (shown for all three axes);
and with mirror clipping enabled on the X axis (boundary at x = 0) and
disjoint nodes, no vertex whose x position was strictly on one side of 0
before the step ends strictly on the other side. -/
theorem clay_strips_lock_and_mirror_clip (P : Params) (st : State) :
    (P.lockX = true →
      ∀ v, ((do_clay_strips_brush P st).state.positions v).x = (st.positions v).x) ∧
    (P.lockY = true →
      ∀ v, ((do_clay_strips_brush P st).state.positions v).y = (st.positions v).y) ∧
    (P.lockZ = true →
      ∀ v, ((do_clay_strips_brush P st).state.positions v).z = (st.positions v).z) ∧
    (P.clipX = true → P.nodeMask.Nodup →
      (∀ a ∈ P.nodeMask, ∀ b ∈ P.nodeMask, a ≠ b →
        ∀ w ∈ P.nodeVerts a, w ∉ P.nodeVerts b) →
      ∀ v, noCrossing (st.positions v).x
        ((do_clay_strips_brush P st).state.positions v).x) := by
  refine ⟨?_, ?_, ?_, ?_⟩
  · intro hl v
    unfold do_clay_strips_brush
    split
    · rfl
    · simp only [clayStripsStepFrom]
      cases hpt : P.pbvhType <;> simp only [hpt]
      · exact foldl_process_positions_comp_inv _ _ V3.x
          (fun p w => newPos_x_locked P p _ hl) _ st v
      · exact foldl_process_positions_comp_inv _ _ V3.x
          (fun p w => newPos_x_locked P p _ hl) _ st v
      · exact foldl_process_positions_comp_inv _ _ V3.x
          (fun p w => newPos_x_locked P p _ hl) _ st v
  · intro hl v
    unfold do_clay_strips_brush
    split
    · rfl
    · simp only [clayStripsStepFrom]
      cases hpt : P.pbvhType <;> simp only [hpt]
      · exact foldl_process_positions_comp_inv _ _ V3.y
          (fun p w => newPos_y_locked P p _ hl) _ st v
      · exact foldl_process_positions_comp_inv _ _ V3.y
          (fun p w => newPos_y_locked P p _ hl) _ st v
      · exact foldl_process_positions_comp_inv _ _ V3.y
          (fun p w => newPos_y_locked P p _ hl) _ st v
  · intro hl v
    unfold do_clay_strips_brush
    split
    · rfl
    · simp only [clayStripsStepFrom]
      cases hpt : P.pbvhType <;> simp only [hpt]
      · exact foldl_process_positions_comp_inv _ _ V3.z
          (fun p w => newPos_z_locked P p _ hl) _ st v
      · exact foldl_process_positions_comp_inv _ _ V3.z
          (fun p w => newPos_z_locked P p _ hl) _ st v
      · exact foldl_process_positions_comp_inv _ _ V3.z
          (fun p w => newPos_z_locked P p _ hl) _ st v
  · intro hc hnd hdisj v
    unfold do_clay_strips_brush
    split
    · exact noCrossing_refl _
    · simp only [clayStripsStepFrom]
      cases hpt : P.pbvhType <;> simp only [hpt]
      · rw [foldl_process_positions_char P.nodeVerts _ P.nodeMask hnd hdisj st v]
        split
        · exact newPos_x_noCrossing P _ _ hc
        · exact noCrossing_refl _
      · rw [foldl_process_positions_char P.nodeVerts _ P.nodeMask hnd hdisj st v]
        split
        · exact newPos_x_noCrossing P _ _ hc
        · exact noCrossing_refl _
      · rw [foldl_process_positions_char P.nodeVerts _ P.nodeMask hnd hdisj st v]
        split
        · exact newPos_x_noCrossing P _ _ hc
        · exact noCrossing_refl _

theorem clay_strips_lock_and_mirror_clip_witness :
    ((do_clay_strips_brush Pclip st0).state.positions 0).x = (st0.positions 0).x ∧
    noCrossing (st0.positions 0).x
      ((do_clay_strips_brush Pclip st0).state.positions 0).x := by
  obtain ⟨h1, _, _, h4⟩ := clay_strips_lock_and_mirror_clip Pclip st0
  exact ⟨h1 rfl 0, h4 rfl (by decide) (by decide) 0⟩
